import Mathlib

/-!
Verification development for the paws3 rolling-horizon bilevel harvest
scheduling package.  The Python sources are shallowly embedded below:
pure data structures become Lean structures, dictionaries become
association lists with Python `dict.get` semantics, floats become exact
rationals, and the stateful scheduler / decomposition loops become
explicit traces.  Every definition mirrors a specific function of the
source tree (named in its doc comment).
-/

namespace Paws3

/-- Numerical tolerance on solved areas used by
`principal.build_principal_model._first_period_commitments` (`1e-9`). -/
def tolArea : ℚ := 1 / 1000000000

/-- Numerical tolerance on volumes used by
`principal.build_principal_model._first_period_commitments` (`1e-6`). -/
def tolVol : ℚ := 1 / 1000000

/-- Python `dict.get(k, d)`: first (hence only, for genuine dicts) binding
of `k` in the association list, or the default `d`. -/
def dget {α β : Type} [DecidableEq α] (l : List (α × β)) (k : α) (d : β) : β :=
  ((l.find? (fun e => e.1 = k)).map Prod.snd).getD d

/-- Python `out[k] = out.get(k, 0.0) + v` on an association-list dict:
update the existing binding in place, otherwise append a fresh one.
Used by `_first_period_commitments` in `models/principal.py`. -/
def insertAdd (l : List ((String × String) × ℚ)) (k : String × String) (v : ℚ) :
    List ((String × String) × ℚ) :=
  if (l.find? (fun e => e.1 == k)).isSome then
    l.map (fun e => if e.1 == k then (e.1, e.2 + v) else e)
  else l ++ [(k, v)]

/-- Python `commitments[k] = v` on an association-list dict: overwrite the
existing binding in place, otherwise append a fresh one.  Used by
`_extract_first_period_commitments` in `models/bilevel.py`. -/
def dinsert (l : List ((String × String) × ℚ)) (k : String × String) (v : ℚ) :
    List ((String × String) × ℚ) :=
  if (l.find? (fun e => e.1 == k)).isSome then
    l.map (fun e => if e.1 == k then (e.1, v) else e)
  else l ++ [(k, v)]

/-- `ForestStratum` from `core/datatypes.py`: id, area (ha), species and
current age (years).  The model defines a field `age` and no field named
`age0`. -/
structure ForestStratum where
  id : String
  area : ℚ
  species : String
  age : ℤ
deriving DecidableEq, Repr

/-- `PeriodDemand` from `core/datatypes.py`. -/
structure PeriodDemand where
  period : ℤ
  species : String
  min_vol : ℚ
  max_vol : ℚ
deriving DecidableEq, Repr

/-- `ProblemData` from `core/datatypes.py`.  The `strata` dict (keyed by
stratum id) and the `yields` dict (keyed by `(stratum, period)`) are
association lists in dict insertion order.  The `prices` and `costs`
dicts carry no behavior relevant to the verified components and are
omitted. -/
structure ProblemData where
  strata : List (String × ForestStratum)
  yields : List ((String × ℤ) × ℚ)
  demand : List PeriodDemand
deriving DecidableEq, Repr

/-- Stratum keys of the problem data, in dict order (`data.strata.keys()`,
which initializes the Pyomo set `m.S` in `build_principal_model`). -/
def strataKeys (data : ProblemData) : List String :=
  data.strata.map Prod.fst

/-- Pyomo set `m.T = range(t0, t0 + T)` from `build_principal_model`:
the window of absolute periods `[t0, t0+T)`. -/
def window (t0 : ℤ) (T : ℕ) : List ℤ :=
  (List.range T).map (fun i => t0 + (i : ℤ))

/-- Helper `yld(s, t_abs)` from `build_principal_model` in
`models/principal.py`: `data.yields.get((s, t_abs - t0), 0.0)`.  Note the
lookup index is window-relative (`t_rel = t_abs - t0`), not the absolute
period. -/
def yld (data : ProblemData) (t0 : ℤ) (s : String) (tabs : ℤ) : ℚ :=
  dget data.yields (s, tabs - t0) 0

/-- A model produced and solved by `build_principal_model(data, cfg, t0, T)`,
as observed by the commitment extractors: the problem data, the window
parameters, and the solver's values for the decision variables
`X[s,t]` (harvested area).  The model always defines the Pyomo variable
`m.X` indexed by `m.S × m.T` and the expression
`m.vol[t] = sum_s X[s,t] * yld(s, t)`. -/
structure SolvedPrincipal where
  data : ProblemData
  t0 : ℤ
  T : ℕ
  X : String → ℤ → ℚ

/-- Pyomo expression `m.vol[t] = sum(m.X[s, t] * yld(s, t) for s in m.S)`
from `build_principal_model`, evaluated at the solved `X` values. -/
def vol (m : SolvedPrincipal) (t : ℤ) : ℚ :=
  (m.data.strata.map (fun e => m.X e.1 t * yld m.data m.t0 e.1 t)).sum

/-- Formula for the per-period volume as the specification states it:
`vol[t] = Σ_s X[s,t] * yield[s,t]` with the yield table looked up at the
absolute period `t`.  Modelled from the spec for comparison with `vol`. -/
def volSpecAbs (m : SolvedPrincipal) (t : ℤ) : ℚ :=
  (m.data.strata.map (fun e => m.X e.1 t * dget m.data.yields (e.1, t) 0)).sum

/-- Formula for the per-period volume with the yield table looked up at
the window-relative index `t - t0`, as the source's `yld` helper does. -/
def volSpecRel (m : SolvedPrincipal) (t : ℤ) : ℚ :=
  (m.data.strata.map (fun e => m.X e.1 t * dget m.data.yields (e.1, t - m.t0) 0)).sum

/-- Inner function `_first_period_commitments()` of `build_principal_model`
(`models/principal.py`): per-stratum first-period volumes keyed
`(s, "sawlog")`, with a pooled `("ALL", "sawlog")` fallback.  Notes on
fidelity: `if t0 not in m.T: return out` is the outer guard; inside the
loop `(s, t0) in m.X` always holds (the loop ranges over `m.S` and the
guard put `t0` in `m.T`), so `x_ha = pyo.value(m.X[s, t0])`; the Python
truthiness test `if x_ha and x_ha > 1e-9` is `x_ha ≠ 0 ∧ x_ha > 1e-9`.
This is the loop body, one step per stratum `s` of `m.S`. -/
def fpcBody (m : SolvedPrincipal) (acc : List ((String × String) × ℚ))
    (e : String × ForestStratum) : List ((String × String) × ℚ) :=
  let x_ha := m.X e.1 m.t0
  if x_ha ≠ 0 ∧ tolArea < x_ha then
    let vol_m3 := x_ha * yld m.data m.t0 e.1 m.t0
    if tolVol < vol_m3 then insertAdd acc (e.1, "sawlog") vol_m3 else acc
  else acc

/-- Inner function `_first_period_commitments()` of `build_principal_model`
(`models/principal.py`): fold `fpcBody` over the strata in dict order
(outer guard `if t0 not in m.T: return out`), then the pooled
`("ALL", "sawlog")` fallback when the per-stratum dict stayed empty. -/
def firstPeriodCommitments (m : SolvedPrincipal) : List ((String × String) × ℚ) :=
  if m.t0 ∈ window m.t0 m.T then
    let out := m.data.strata.foldl (fpcBody m) []
    if out = [] then
      let v0 := vol m m.t0
      if tolVol < v0 then [(("ALL", "sawlog"), v0)] else []
    else out
  else []

/-- Function `_extract_first_period_commitments(pr, data, t)` from
`models/bilevel.py`, Case 1 (`hasattr(m, "X")`), which is the case taken
for every model built by `build_principal_model` (that builder always
defines `m.X`; Case 2, weight-splitting of an aggregate `m.vol`, is
unreachable from the decomposition loop).  The Python iterates the index
set of `X` (`m.S × m.T` in row-major order) keeping keys `(s, tau)` with
`tau == t`, so one pass over the strata in dict order; `area <= 0`
entries are skipped; the yield is looked up at the absolute period
`(s, t)`; only strictly positive volumes are stored.  This is the
per-stratum loop body of that case. -/
def blBody (m : SolvedPrincipal) (t : ℤ) (acc : List ((String × String) × ℚ))
    (e : String × ForestStratum) : List ((String × String) × ℚ) :=
  if t ∈ window m.t0 m.T then
    let area := m.X e.1 t
    if area ≤ 0 then acc
    else
      let y := dget m.data.yields (e.1, t) 0
      let v := area * y
      if 0 < v then dinsert acc (e.1, "sawlog") v else acc
  else acc

/-- Fold of `blBody` over the strata: the whole of Case 1 of
`_extract_first_period_commitments` in `models/bilevel.py`. -/
def extractFirstPeriodCommitmentsBL (m : SolvedPrincipal) (t : ℤ) :
    List ((String × String) × ℚ) :=
  m.data.strata.foldl (blBody m t) []

/-- Function `maxBinByS` computed at the top of `_expand_absolute_yields`
(`io/loaders.py`): `max_bin_by_s[s] = max(age_bin, max_bin_by_s.get(s, 0))`
folded over the items of the relative yield table, read back with
`.get(s, 0)`, which is a fold of `max` starting from `0` over the bins
tabulated for `s`. -/
def maxBinByS (yields : List ((String × ℤ) × ℚ)) (s : String) : ℤ :=
  yields.foldl (fun acc e => if e.1.1 == s then max e.1.2 acc else acc) 0

/-- Function `_expand_absolute_yields(data, end_period, horizon_periods,
period_years)` from `io/loaders.py` (the replacement `yields` dict it
installs).  Python's floor division `//` is `Int.fdiv`.  The line
`age0 = getattr(strat, "age0", 0)` always takes the default `0`:
`ForestStratum` (in `core/datatypes.py`) defines a field `age`, not
`age0`, and no code ever sets an `age0` attribute, so `getattr` falls
back to `0` for every stratum. -/
def expandAbsoluteYields (data : ProblemData) (end_period horizon_periods : ℤ)
    (period_years : ℤ) : List ((String × ℤ) × ℚ) :=
  let t_max := end_period + horizon_periods
  data.strata.foldl (fun acc e =>
    let age0 : ℤ := 0
    let max_bin := maxBinByS data.yields e.1
    acc ++ ((List.range (t_max + 1).toNat).map (fun i =>
      let t : ℤ := (i : ℤ)
      let age_years := age0 + t * period_years
      let age_bin := min (Int.fdiv age_years period_years) max_bin
      ((e.1, t), dget data.yields (e.1, age_bin) 0)))) []

/-- Yield expansion as the specification states it: identical to
`expandAbsoluteYields` except that `age0` is the stratum's initial age in
years (`strat.age`).  Modelled from the spec for comparison with the
source's behavior. -/
def expandAbsoluteYieldsSpec (data : ProblemData) (end_period horizon_periods : ℤ)
    (period_years : ℤ) : List ((String × ℤ) × ℚ) :=
  let t_max := end_period + horizon_periods
  data.strata.foldl (fun acc e =>
    let age0 : ℤ := e.2.age
    let max_bin := maxBinByS data.yields e.1
    acc ++ ((List.range (t_max + 1).toNat).map (fun i =>
      let t : ℤ := (i : ℤ)
      let age_years := age0 + t * period_years
      let age_bin := min (Int.fdiv age_years period_years) max_bin
      ((e.1, t), dget data.yields (e.1, age_bin) 0)))) []

/-- Trace of the scheduler loop `RollingHorizonSimulator.run` in
`core/sim.py`: `state.t` after `n` iterations of
`while state.t < state.t_end: ...; state.t += h.replanning_step`,
started from `start = h.start_period` with `tEnd = h.end_period` and
`step = h.replanning_step`.  Iteration `n` executes the loop body (and
so visits period `simTrace ... n`) exactly when `simTrace ... n < tEnd`. -/
def simTrace (start tEnd step : ℤ) : ℕ → ℤ
  | 0 => start
  | n + 1 =>
    if simTrace start tEnd step n < tEnd then simTrace start tEnd step n + step
    else simTrace start tEnd step n

/-- `BilevelConfig` from `core/config.py`. -/
structure BilevelConfig where
  enabled : Bool
  reformulation : String

/-- Body and iteration structure of the decomposition loop
`for it in range(opts.max_iters)` in `solve_bilevel_if_enabled`
(`models/bilevel.py`).  Each executed iteration extracts commitments,
performs the (logging-only) capacity check, then obtains
`aresp = _call_fhops_if_configured(...)` — abstracted here as the
`resp : Option β` outcome (`none` when no `fhops_exec` agent policy is
configured or the adapter raised).  If `aresp is None` the body hits
`break` (stub lower level); otherwise it logs the summary and hits the
final `break` (unconditional acceptance).  Either way the body breaks,
so the returned pair is (number of executed iterations, accepted
response). -/
def decompRunAux {β : Type} : ℕ → Option β → ℕ → ℕ × Option β
  | 0, _, it => (it, none)
  | _ + 1, resp, it =>
    match resp with
    | none => (it + 1, none)
    | some r => (it + 1, some r)

/-- Decomposition loop of `solve_bilevel_if_enabled` started at iteration
`0` with `opts.max_iters = maxIters`. -/
def decompRun {β : Type} (maxIters : ℕ) (resp : Option β) : ℕ × Option β :=
  decompRunAux maxIters resp 0

/-- Function `solve_bilevel_if_enabled(data, cfg, pr, current_period)` from
`models/bilevel.py` as a state transformer: it returns immediately when
bilevel mode is disabled or the reformulation is not "decomposition",
and otherwise runs the decomposition loop.  The Python function returns
`None` and never mutates the `PrincipalResult`; the embedding returns
the (unchanged) upper-level result `pr` together with the loop's
iteration count and accepted lower-level response. -/
def solveBilevelIfEnabled {α β : Type} (cfg : BilevelConfig) (maxIters : ℕ)
    (resp : Option β) (pr : α) : α × ℕ × Option β :=
  if cfg.enabled = false then (pr, 0, none)
  else if cfg.reformulation ≠ "decomposition" then (pr, 0, none)
  else
    let r := decompRun maxIters resp
    (pr, r.1, r.2)

/-- State of the module dict `_REGISTRY` in `plugins/registry.py` after a
sequence of `register(name)(behavior)` calls, applied in order:
`_REGISTRY[name] = fn` overwrites, so the last registration for a name
wins. -/
def regState {β : Type} (events : List (String × β)) : String → Option β :=
  events.foldl (fun m e => fun k => if k == e.1 then some e.2 else m k) (fun _ => none)

/-- Function `get(name)` from `plugins/registry.py`: `none` models the
`KeyError` raised when `name not in _REGISTRY`, `some f` the returned
behavior. -/
def getPlugin {β : Type} (events : List (String × β)) (name : String) : Option β :=
  regState events name

/-- Outcome environment of one `run_cli_json(cmd)` call
(`adapters/util.py`): whether `shutil.which(cmd[0])` found the
executable, the completed process's return code, its captured standard
output and standard error, and the result of `json.loads(stdout)`
(`none` when parsing raises).  `J` is the type of parsed JSON values. -/
structure CliEnv (J : Type) where
  found : Bool
  returncode : ℤ
  stdout : String
  stderr : String
  parsed : Option J

/-- The four result shapes of `run_cli_json` (`adapters/util.py`). -/
inductive CliResult (J : Type) where
  | warning (msg : String)
  | error (msg : String)
  | json (j : J)
  | stdoutRaw (s : String)
deriving DecidableEq

/-- Function `run_cli_json(cmd)` from `adapters/util.py`, over the outcome
environment: missing executable yields the structured warning, a
non-zero return code yields the stripped stderr as an error,
JSON-parsable stdout yields the parsed value, and anything else yields
the raw stdout; no branch raises.  Python's `str.strip()` is
`String.trim`. -/
def run_cli_json {J : Type} (env : CliEnv J) (cmd0 : String) : CliResult J :=
  if env.found = false then .warning ("executable not found: " ++ cmd0)
  else if env.returncode ≠ 0 then .error env.stderr.trim
  else
    match env.parsed with
    | some j => .json j
    | none => .stdoutRaw env.stdout

/-- Classification the specification gives for `run_cli_json`: exactly one
of the four shapes, selected by the stated conditions. -/
def cliClassified {J : Type} (env : CliEnv J) (cmd0 : String) (r : CliResult J) : Prop :=
  (env.found = false ∧ r = .warning ("executable not found: " ++ cmd0)) ∨
  (env.found = true ∧ env.returncode ≠ 0 ∧ r = .error env.stderr.trim) ∨
  (env.found = true ∧ env.returncode = 0 ∧ ∃ j, env.parsed = some j ∧ r = .json j) ∨
  (env.found = true ∧ env.returncode = 0 ∧ env.parsed = none ∧ r = .stdoutRaw env.stdout)

/-- Selection made by one `fpcBody` step for a stratum, as an optional
key/value pair: the stratum contributes exactly when the solved area
passes the `1e-9` truthiness test and the resulting window-relative
volume exceeds `1e-6`. -/
def fpcSelect (m : SolvedPrincipal) (e : String × ForestStratum) :
    Option ((String × String) × ℚ) :=
  if (m.X e.1 m.t0 ≠ 0 ∧ tolArea < m.X e.1 m.t0) ∧
      tolVol < m.X e.1 m.t0 * yld m.data m.t0 e.1 m.t0 then
    some ((e.1, "sawlog"), m.X e.1 m.t0 * yld m.data m.t0 e.1 m.t0)
  else none

/-- Selection made by one `blBody` step for a stratum: the stratum
contributes exactly when the period is in the window, the solved area is
strictly positive and the absolute-period volume is strictly positive. -/
def blSelect (m : SolvedPrincipal) (t : ℤ) (e : String × ForestStratum) :
    Option ((String × String) × ℚ) :=
  if t ∈ window m.t0 m.T ∧ ¬ m.X e.1 t ≤ 0 ∧
      0 < m.X e.1 t * dget m.data.yields (e.1, t) 0 then
    some ((e.1, "sawlog"), m.X e.1 t * dget m.data.yields (e.1, t) 0)
  else none

/-- Specification of the first-period commitment extractor of
`build_principal_model`, with the yield looked up as the code does
(window-relative) and the pooled fallback guarded by the `1e-6` volume
tolerance: (1) every stratum whose solved area passes the tolerances is
recorded under `(s, "sawlog")` with its volume; (2) when no stratum
contributes and the aggregate first-period volume exceeds `1e-6` the
result is the single pooled `("ALL", "sawlog")` entry; (3) an all-zero
solution yields the empty commitment set. -/
def fpcSpec (m : SolvedPrincipal) : Prop :=
  (∀ e ∈ m.data.strata, m.t0 ∈ window m.t0 m.T →
    tolArea < m.X e.1 m.t0 → tolVol < m.X e.1 m.t0 * yld m.data m.t0 e.1 m.t0 →
    ((e.1, "sawlog"), m.X e.1 m.t0 * yld m.data m.t0 e.1 m.t0) ∈
      firstPeriodCommitments m) ∧
  ((∀ e ∈ m.data.strata,
      ¬ (tolArea < m.X e.1 m.t0 ∧ tolVol < m.X e.1 m.t0 * yld m.data m.t0 e.1 m.t0)) →
    m.t0 ∈ window m.t0 m.T → tolVol < vol m m.t0 →
    firstPeriodCommitments m = [(("ALL", "sawlog"), vol m m.t0)]) ∧
  ((∀ s t, m.X s t = 0) → firstPeriodCommitments m = [])

/-- Safety of the commitments extracted for the first period of a solved
window: every committed volume is non-negative and their total is at
most the physical capacity `Σ_s area[s] * yield[s, t0]` computed with
the absolute-period yield, exactly the bound `solve_bilevel_if_enabled`
checks against. -/
def blSafe (m : SolvedPrincipal) : Prop :=
  (∀ p ∈ extractFirstPeriodCommitmentsBL m m.t0, 0 ≤ p.2) ∧
  ((extractFirstPeriodCommitmentsBL m m.t0).map Prod.snd).sum ≤
    (m.data.strata.map (fun e => e.2.area * dget m.data.yields (e.1, m.t0) 0)).sum

/-- Window starting at `t0 = 1` whose yield table distinguishes the
window-relative index `0` from the absolute period `1`: one stratum with
yields `1` at index `0` and `2` at index `1`, solved area `1` at the
window's single period. -/
def exRel : SolvedPrincipal :=
  { data := { strata := [("A", ⟨"A", 100, "PINE", 0⟩)],
              yields := [(("A", 0), 1), (("A", 1), 2)],
              demand := [] },
    t0 := 1, T := 1,
    X := fun s t => if s == "A" && t == 1 then 1 else 0 }

/-- Variant of `exRel` whose relative-index yield is `0`: the absolute
yield at the window's period is `2`, but the code's window-relative
lookup sees `0`. -/
def exRel0 : SolvedPrincipal :=
  { data := { strata := [("A", ⟨"A", 100, "PINE", 0⟩)],
              yields := [(("A", 0), 0), (("A", 1), 2)],
              demand := [] },
    t0 := 1, T := 1,
    X := fun s t => if s == "A" && t == 1 then 1 else 0 }

/-- Window at `t0 = 0` with a tiny solved area `1e-8`: above the bilevel
extractor's strict-positivity test but below the principal extractor's
`1e-6` volume tolerance. -/
def exTiny : SolvedPrincipal :=
  { data := { strata := [("A", ⟨"A", 100, "PINE", 0⟩)],
              yields := [(("A", 0), 1)],
              demand := [] },
    t0 := 0, T := 1,
    X := fun s t => if s == "A" && t == 0 then 1 / 100000000 else 0 }

/-- Simple solved window used as a concrete witness: one stratum of
100 ha with yield 2 m3/ha, solved area 25 ha at the single period. -/
def exPlain : SolvedPrincipal :=
  { data := { strata := [("A", ⟨"A", 100, "PINE", 0⟩)],
              yields := [(("A", 0), 2)],
              demand := [] },
    t0 := 0, T := 1,
    X := fun s t => if s == "A" && t == 0 then 25 else 0 }

/-- Problem data for a 20-year-old stratum whose relative yield table
has bins `0, 1, 2` with values `1, 2, 3`. -/
def exAgeData : ProblemData :=
  { strata := [("A", ⟨"A", 100, "PINE", 20⟩)],
    yields := [(("A", 0), 1), (("A", 1), 2), (("A", 2), 3)],
    demand := [] }

/-! Supporting lemmas. -/

theorem insertAdd_fresh (l : List ((String × String) × ℚ)) (k : String × String) (v : ℚ)
    (h : ∀ p ∈ l, p.1 ≠ k) : insertAdd l k v = l ++ [(k, v)] := by
  have hf : l.find? (fun e => e.1 == k) = none := by
    apply List.find?_eq_none.mpr
    intro p hp
    simpa using h p hp
  simp [insertAdd, hf]

theorem dinsert_fresh (l : List ((String × String) × ℚ)) (k : String × String) (v : ℚ)
    (h : ∀ p ∈ l, p.1 ≠ k) : dinsert l k v = l ++ [(k, v)] := by
  have hf : l.find? (fun e => e.1 == k) = none := by
    apply List.find?_eq_none.mpr
    intro p hp
    simpa using h p hp
  simp [dinsert, hf]

theorem fpcBody_select_none (m : SolvedPrincipal) (acc : List ((String × String) × ℚ))
    (e : String × ForestStratum) (h : fpcSelect m e = none) : fpcBody m acc e = acc := by
  by_cases h1 : m.X e.1 m.t0 ≠ 0 ∧ tolArea < m.X e.1 m.t0
  · by_cases h2 : tolVol < m.X e.1 m.t0 * yld m.data m.t0 e.1 m.t0
    · exact absurd h (by simp [fpcSelect, h1, h2])
    · simp [fpcBody, h1, h2]
  · simp [fpcBody, h1]

theorem fpcBody_select_some (m : SolvedPrincipal) (acc : List ((String × String) × ℚ))
    (e : String × ForestStratum) (kv : (String × String) × ℚ)
    (h : fpcSelect m e = some kv) : fpcBody m acc e = insertAdd acc kv.1 kv.2 := by
  unfold fpcSelect at h
  split_ifs at h with hc
  · cases h
    simp [fpcBody, hc.1, hc.2]

theorem blBody_select_none (m : SolvedPrincipal) (t : ℤ)
    (acc : List ((String × String) × ℚ)) (e : String × ForestStratum)
    (h : blSelect m t e = none) : blBody m t acc e = acc := by
  by_cases hw : t ∈ window m.t0 m.T
  · by_cases ha : m.X e.1 t ≤ 0
    · simp [blBody, hw, ha]
    · by_cases hv : 0 < m.X e.1 t * dget m.data.yields (e.1, t) 0
      · exact absurd h (by simp [blSelect, hw, ha, hv])
      · simp [blBody, hw, ha, hv]
  · simp [blBody, hw]

theorem blBody_select_some (m : SolvedPrincipal) (t : ℤ)
    (acc : List ((String × String) × ℚ)) (e : String × ForestStratum)
    (kv : (String × String) × ℚ) (h : blSelect m t e = some kv) :
    blBody m t acc e = dinsert acc kv.1 kv.2 := by
  unfold blSelect at h
  split_ifs at h with hc
  · cases h
    simp [blBody, hc.1, hc.2.1, hc.2.2]

theorem fpcSelect_key (m : SolvedPrincipal) (e : String × ForestStratum)
    (kv : (String × String) × ℚ) (h : fpcSelect m e = some kv) :
    kv.1 = (e.1, "sawlog") := by
  unfold fpcSelect at h
  split_ifs at h with h1
  · cases h
    rfl

theorem blSelect_key (m : SolvedPrincipal) (t : ℤ) (e : String × ForestStratum)
    (kv : (String × String) × ℚ) (h : blSelect m t e = some kv) :
    kv.1 = (e.1, "sawlog") := by
  unfold blSelect at h
  split_ifs at h with h1
  · cases h
    rfl

theorem fpc_foldl_canon (m : SolvedPrincipal) :
    ∀ (l : List (String × ForestStratum)) (acc : List ((String × String) × ℚ)),
    (l.map Prod.fst).Nodup →
    (∀ e ∈ l, ∀ p ∈ acc, p.1 ≠ (e.1, "sawlog")) →
    l.foldl (fpcBody m) acc = acc ++ l.filterMap (fpcSelect m) := by
  intro l
  induction l with
  | nil => intro acc _ _; simp
  | cons e l ih =>
    intro acc hnd hacc
    have hnd' : (l.map Prod.fst).Nodup := (List.nodup_cons.mp (by simpa using hnd)).2
    have hne : e.1 ∉ l.map Prod.fst := (List.nodup_cons.mp (by simpa using hnd)).1
    cases hsel : fpcSelect m e with
    | none =>
      rw [List.foldl_cons, fpcBody_select_none m acc e hsel,
        ih acc hnd' (fun e' he' => hacc e' (List.mem_cons_of_mem _ he'))]
      simp [hsel]
    | some kv =>
      have hk := fpcSelect_key m e kv hsel
      rw [List.foldl_cons, fpcBody_select_some m acc e kv hsel,
        insertAdd_fresh acc kv.1 kv.2
          (fun p hp => by rw [hk]; exact hacc e (List.mem_cons_self e l) p hp)]
      rw [ih (acc ++ [(kv.1, kv.2)]) hnd' ?hfresh]
      · simp [hsel]
      case hfresh =>
        intro e' he' p hp
        rcases List.mem_append.mp hp with hp | hp
        · exact hacc e' (List.mem_cons_of_mem _ he') p hp
        · have : p = (kv.1, kv.2) := by simpa using hp
          rw [this, hk]
          intro hcontra
          apply hne
          have : e.1 = e'.1 := by
            have := congrArg Prod.fst hcontra
            simpa using this
          rw [this]
          exact List.mem_map_of_mem Prod.fst he'

theorem bl_foldl_canon (m : SolvedPrincipal) (t : ℤ) :
    ∀ (l : List (String × ForestStratum)) (acc : List ((String × String) × ℚ)),
    (l.map Prod.fst).Nodup →
    (∀ e ∈ l, ∀ p ∈ acc, p.1 ≠ (e.1, "sawlog")) →
    l.foldl (blBody m t) acc = acc ++ l.filterMap (blSelect m t) := by
  intro l
  induction l with
  | nil => intro acc _ _; simp
  | cons e l ih =>
    intro acc hnd hacc
    have hnd' : (l.map Prod.fst).Nodup := (List.nodup_cons.mp (by simpa using hnd)).2
    have hne : e.1 ∉ l.map Prod.fst := (List.nodup_cons.mp (by simpa using hnd)).1
    cases hsel : blSelect m t e with
    | none =>
      rw [List.foldl_cons, blBody_select_none m t acc e hsel,
        ih acc hnd' (fun e' he' => hacc e' (List.mem_cons_of_mem _ he'))]
      simp [hsel]
    | some kv =>
      have hk := blSelect_key m t e kv hsel
      rw [List.foldl_cons, blBody_select_some m t acc e kv hsel,
        dinsert_fresh acc kv.1 kv.2
          (fun p hp => by rw [hk]; exact hacc e (List.mem_cons_self e l) p hp)]
      rw [ih (acc ++ [(kv.1, kv.2)]) hnd' ?hfresh]
      · simp [hsel]
      case hfresh =>
        intro e' he' p hp
        rcases List.mem_append.mp hp with hp | hp
        · exact hacc e' (List.mem_cons_of_mem _ he') p hp
        · have : p = (kv.1, kv.2) := by simpa using hp
          rw [this, hk]
          intro hcontra
          apply hne
          have : e.1 = e'.1 := by
            have := congrArg Prod.fst hcontra
            simpa using this
          rw [this]
          exact List.mem_map_of_mem Prod.fst he'

theorem insertAdd_pos (l : List ((String × String) × ℚ)) (k : String × String) (v : ℚ)
    (hl : ∀ p ∈ l, 0 < p.2) (hv : 0 < v) : ∀ p ∈ insertAdd l k v, 0 < p.2 := by
  intro p hp
  unfold insertAdd at hp
  split_ifs at hp with hf
  · rcases List.mem_map.mp hp with ⟨q, hq, hqe⟩
    by_cases hk : q.1 == k
    · rw [if_pos hk] at hqe
      rw [← hqe]
      have := hl q hq
      simp only []
      positivity
    · rw [if_neg hk] at hqe
      rw [← hqe]
      exact hl q hq
  · rcases List.mem_append.mp hp with hp | hp
    · exact hl p hp
    · have hpe : p = (k, v) := by simpa using hp
      rw [hpe]
      exact hv

theorem fpc_fold_pos (m : SolvedPrincipal) :
    ∀ (l : List (String × ForestStratum)) (acc : List ((String × String) × ℚ)),
    (∀ p ∈ acc, 0 < p.2) → ∀ p ∈ l.foldl (fpcBody m) acc, 0 < p.2 := by
  intro l
  induction l with
  | nil =>
    intro acc hacc p hp
    exact hacc p (by simpa using hp)
  | cons e l ih =>
    intro acc hacc p hp
    rw [List.foldl_cons] at hp
    refine ih _ ?_ p hp
    intro q hq
    by_cases h1 : m.X e.1 m.t0 ≠ 0 ∧ tolArea < m.X e.1 m.t0
    · by_cases h2 : tolVol < m.X e.1 m.t0 * yld m.data m.t0 e.1 m.t0
      · have hb : fpcBody m acc e =
            insertAdd acc (e.1, "sawlog") (m.X e.1 m.t0 * yld m.data m.t0 e.1 m.t0) := by
          simp [fpcBody, h1, h2]
        rw [hb] at hq
        have hv : (0:ℚ) < m.X e.1 m.t0 * yld m.data m.t0 e.1 m.t0 :=
          lt_trans (by norm_num [tolVol]) h2
        exact insertAdd_pos acc _ _ hacc hv q hq
      · have hb : fpcBody m acc e = acc := by simp [fpcBody, h1, h2]
        rw [hb] at hq
        exact hacc q hq
    · have hb : fpcBody m acc e = acc := by simp [fpcBody, h1]
      rw [hb] at hq
      exact hacc q hq

theorem simTrace_visit (start tEnd step : ℤ) (hstep : 1 ≤ step) :
    ∀ n : ℕ, simTrace start tEnd step n < tEnd →
      simTrace start tEnd step n = start + (n : ℤ) * step := by
  intro n
  induction n with
  | zero => intro _; simp [simTrace]
  | succ n ih =>
    intro h
    by_cases hn : simTrace start tEnd step n < tEnd
    · have hin := ih hn
      simp only [simTrace, if_pos hn]
      rw [hin]
      push_cast
      ring
    · simp only [simTrace, if_neg hn] at h
      exact absurd h hn

theorem simTrace_mono (start tEnd step : ℤ) (hstep : 0 ≤ step) (n m : ℕ) (hnm : n ≤ m) :
    simTrace start tEnd step n ≤ simTrace start tEnd step m := by
  induction m with
  | zero =>
    have hz : n = 0 := Nat.le_zero.mp hnm
    rw [hz]
  | succ m ih =>
    rcases Nat.lt_or_ge n (m + 1) with h | h
    · refine le_trans (ih (Nat.lt_succ_iff.mp h)) ?_
      by_cases hm : simTrace start tEnd step m < tEnd
      · simp only [simTrace, if_pos hm]
        linarith
      · simp only [simTrace, if_neg hm]
        exact le_refl _
    · have hz : n = m + 1 := le_antisymm hnm h
      rw [hz]

theorem simTrace_strict (start tEnd step : ℤ) (hstep : 1 ≤ step) (n m : ℕ)
    (hnm : n < m) (hv : simTrace start tEnd step n < tEnd) :
    simTrace start tEnd step n < simTrace start tEnd step m := by
  have h1 : simTrace start tEnd step (n + 1) = simTrace start tEnd step n + step := by
    simp only [simTrace, if_pos hv]
  have h2 : simTrace start tEnd step (n + 1) ≤ simTrace start tEnd step m :=
    simTrace_mono start tEnd step (by linarith) (n + 1) m hnm
  linarith

theorem simTrace_terminates (start tEnd step : ℤ) (hstep : 1 ≤ step) :
    ∃ k, tEnd ≤ simTrace start tEnd step k := by
  by_cases h : tEnd ≤ simTrace start tEnd step (tEnd - start).toNat
  · exact ⟨(tEnd - start).toNat, h⟩
  · push_neg at h
    have hv := simTrace_visit start tEnd step hstep (tEnd - start).toNat h
    have hk2 : tEnd - start ≤ ((tEnd - start).toNat : ℤ) := Int.self_le_toNat _
    have hks : ((tEnd - start).toNat : ℤ) * 1 ≤ ((tEnd - start).toNat : ℤ) * step :=
      mul_le_mul_of_nonneg_left hstep (Int.natCast_nonneg _)
    rw [hv] at h
    exfalso
    linarith

/-! Claim theorems. -/

/-- C1, counterexample: in the model built by `build_principal_model` over
the window `[1, 2)` with yield table `{(A,0) ↦ 1, (A,1) ↦ 2}` and solved
area `X[A,1] = 1`, the period-1 volume expression evaluates to `1`
(window-relative lookup at bin 0), not to `Σ_s X[s,1] * yield[s,1] = 2`
as the claim's absolute-time formula states. -/
theorem vol_absolute_lookup_refuted :
    (1 : ℤ) ∈ window exRel.t0 exRel.T ∧ vol exRel 1 = 1 ∧ volSpecAbs exRel 1 = 2 ∧
      vol exRel 1 ≠ volSpecAbs exRel 1 := by
  refine ⟨by norm_num [exRel, window], ?_, ?_, ?_⟩ <;>
    norm_num [exRel, vol, volSpecAbs, yld, dget, List.find?, instBEqProd]

/-- C1, amended: in the model built by `build_principal_model`, the
per-period volume expression satisfies, for every period `t`,
`vol[t] = Σ_s X[s,t] * yields[(s, t - t0)]` — the yield table is indexed
at the window-relative position `t - t0`, not at the absolute period. -/
theorem vol_eq_relative_lookup (m : SolvedPrincipal) (t : ℤ) :
    vol m t = volSpecRel m t := rfl

/-- C3: evaluation of `_expand_absolute_yields` at a 20-year-old stratum
with `period_years = 10` and relative bins `{0 ↦ 1, 1 ↦ 2, 2 ↦ 3}`.
The code reads `getattr(strat, "age0", 0)`, but `ForestStratum` defines
the age field as `age`, so the initial age is silently `0` and the
expanded entry at `t = 0` is bin 0's value `1`; the specified formula
(with `age0` the stratum's initial age, here 20) gives bin
`min(⌊20/10⌋, 2) = 2`, value `3`. -/
theorem expandAbsoluteYields_age0_bug_eval :
    dget (expandAbsoluteYields exAgeData 0 0 10) ("A", 0) 0 = 1 ∧
    dget (expandAbsoluteYieldsSpec exAgeData 0 0 10) ("A", 0) 0 = 3 ∧
    dget (expandAbsoluteYields exAgeData 0 0 10) ("A", 0) 0 ≠
      dget (expandAbsoluteYieldsSpec exAgeData 0 0 10) ("A", 0) 0 := by
  refine ⟨?_, ?_, ?_⟩ <;>
    norm_num [expandAbsoluteYields, expandAbsoluteYieldsSpec, exAgeData, maxBinByS,
      dget, List.find?, List.range, List.range.loop, Int.fdiv, instBEqProd]

/-- C6, counterexample: with `start_period = 0`, `end_period = 1` and
`replanning_step = 0` the scheduler loop visits period `0` at iteration
`0` and again at iteration `1` (both iterations run, since the current
period stays below `t_end`), so the visited periods are neither strictly
increasing nor distinct, and the loop never reaches `t ≥ t_end`. -/
theorem simTrace_zero_step_revisits :
    simTrace 0 1 0 0 = 0 ∧ simTrace 0 1 0 1 = 0 ∧ simTrace 0 1 0 0 < 1 ∧
      simTrace 0 1 0 1 < 1 := by
  refine ⟨rfl, ?_, ?_, ?_⟩ <;> decide

/-- C6, amended: for every configuration with `replanning_step ≥ 1` the
scheduler loop visits exactly the periods `start + n * step` (every
iteration `n` whose period is still below `t_end` sits at that value),
the visited periods are strictly increasing (hence each period is
visited at most once), and the loop terminates: some iteration reaches
`t ≥ t_end` and the trace is constant from there on. -/
theorem simTrace_amended (start tEnd step : ℤ) (n m : ℕ) (hstep : 1 ≤ step)
    (hnm : n < m) (hv : simTrace start tEnd step n < tEnd) :
    simTrace start tEnd step n = start + (n : ℤ) * step ∧
    simTrace start tEnd step n < simTrace start tEnd step m ∧
    ∃ k, tEnd ≤ simTrace start tEnd step k :=
  ⟨simTrace_visit start tEnd step hstep n hv,
   simTrace_strict start tEnd step hstep n m hnm hv,
   simTrace_terminates start tEnd step hstep⟩

/-- Witness for C6 (amended) at `start = 0`, `t_end = 3`, `step = 2`,
iterations `0 < 1`. -/
theorem simTrace_amended_witness :
    (1:ℤ) ≤ 2 ∧ 0 < 1 ∧ simTrace 0 3 2 0 < 3 ∧
    (simTrace 0 3 2 0 = 0 + ((0:ℕ) : ℤ) * 2 ∧ simTrace 0 3 2 0 < simTrace 0 3 2 1 ∧
      ∃ k, 3 ≤ simTrace 0 3 2 k) :=
  ⟨by norm_num, by norm_num, by decide,
   simTrace_amended 0 3 2 0 1 (by norm_num) (by norm_num) (by decide)⟩

/-- C7: whenever bilevel mode is enabled with the "decomposition"
reformulation, the decomposition loop executes exactly one iteration for
every `max_iters ≥ 1` and stops: the upper-level result is returned
unchanged, and the lower-level response (if any) is accepted
unconditionally — `none` (no agent-execution policy naming a lower-level
executor, or an adapter failure) and `some r` both `break` in
iteration 0, so a second iteration is never executed. -/
theorem solveBilevel_single_iteration {α β : Type} (cfg : BilevelConfig)
    (maxIters : ℕ) (resp : Option β) (pr : α) (h1 : cfg.enabled = true)
    (h2 : cfg.reformulation = "decomposition") (h3 : 1 ≤ maxIters) :
    solveBilevelIfEnabled cfg maxIters resp pr = (pr, 1, resp) := by
  obtain ⟨k, rfl⟩ : ∃ k, maxIters = k + 1 := ⟨maxIters - 1, by omega⟩
  cases resp with
  | none => simp [solveBilevelIfEnabled, decompRun, decompRunAux, h1, h2]
  | some r => simp [solveBilevelIfEnabled, decompRun, decompRunAux, h1, h2]

/-- Witness for C7: enabled decomposition config, `max_iters = 5`, a
lower-level response `some 42`, upper-level result `0`. -/
theorem solveBilevel_single_iteration_witness :
    (BilevelConfig.mk true "decomposition").enabled = true ∧
    (BilevelConfig.mk true "decomposition").reformulation = "decomposition" ∧
    1 ≤ 5 ∧
    solveBilevelIfEnabled (BilevelConfig.mk true "decomposition") 5
      (some (42:ℕ)) (0:ℕ) = ((0:ℕ), 1, some (42:ℕ)) :=
  ⟨rfl, rfl, by norm_num,
   solveBilevel_single_iteration (BilevelConfig.mk true "decomposition") 5
     (some (42:ℕ)) (0:ℕ) rfl rfl (by norm_num)⟩

/-- C8: the registry lookup `get(name)` fails (raises `KeyError`, modelled
as `none`) exactly when no `register(name, ...)` call was ever made, and
otherwise returns the behavior of the most recent registration for that
name (the reversed-list `find?` on the right): overwrite is allowed and
the last registration wins. -/
theorem getPlugin_last_registration {β : Type} (events : List (String × β))
    (name : String) :
    getPlugin events name =
      (events.reverse.find? (fun e => e.1 == name)).map Prod.snd := by
  induction events using List.reverseRecOn with
  | nil => rfl
  | append_singleton l e ih =>
    have hl : getPlugin (l ++ [e]) name =
        if name == e.1 then some e.2 else getPlugin l name := by
      simp [getPlugin, regState, List.foldl_append]
    rw [hl]
    by_cases h : e.1 = name
    · simp [h, List.find?]
    · have h1 : (name == e.1) = false := beq_eq_false_iff_ne.mpr (fun hh => h hh.symm)
      have h2 : (e.1 == name) = false := beq_eq_false_iff_ne.mpr h
      simp [h1, h2, List.find?, ih]

/-- C9: `run_cli_json` never raises for the outcomes it classifies and
returns exactly one of the four shapes: the structured
executable-not-found warning, the stderr text on a non-zero exit status,
the parsed JSON value when stdout parses, and the raw stdout otherwise. -/
theorem run_cli_json_classified {J : Type} (env : CliEnv J) (cmd0 : String) :
    cliClassified env cmd0 (run_cli_json env cmd0) := by
  by_cases hb : env.found = false
  · exact Or.inl ⟨hb, by simp [run_cli_json, hb]⟩
  · have hb' : env.found = true := by
      revert hb
      cases env.found <;> simp
    by_cases hr : env.returncode ≠ 0
    · exact Or.inr (Or.inl ⟨hb', hr, by simp [run_cli_json, hb, hr]⟩)
    · push_neg at hr
      cases hp : env.parsed with
      | some j =>
        exact Or.inr (Or.inr (Or.inl ⟨hb', hr, j, hp, by simp [run_cli_json, hb, hr, hp]⟩))
      | none =>
        exact Or.inr (Or.inr (Or.inr ⟨hb', hr, hp, by simp [run_cli_json, hb, hr, hp]⟩))

/-- C10: every entry stored in the first-period commitment map returned by
`build_principal_model` has a strictly positive volume (per-stratum
entries are sums of volumes above `1e-6`, and the pooled
`("ALL", "sawlog")` fallback requires the aggregate to exceed `1e-6`), so
"nothing committed" is always represented by the empty map. -/
theorem firstPeriodCommitments_pos (m : SolvedPrincipal) (p : (String × String) × ℚ)
    (hp : p ∈ firstPeriodCommitments m) : 0 < p.2 := by
  by_cases hw : m.t0 ∈ window m.t0 m.T
  · by_cases hout : m.data.strata.foldl (fpcBody m) [] = []
    · by_cases hv0 : tolVol < vol m m.t0
      · have he : firstPeriodCommitments m = [(("ALL", "sawlog"), vol m m.t0)] := by
          simp [firstPeriodCommitments, hw, hout, hv0]
        rw [he] at hp
        have hpe : p = (("ALL", "sawlog"), vol m m.t0) := by simpa using hp
        rw [hpe]
        exact lt_trans (by norm_num [tolVol]) hv0
      · have he : firstPeriodCommitments m = [] := by
          simp [firstPeriodCommitments, hw, hout, hv0]
        rw [he] at hp
        simp at hp
    · have he : firstPeriodCommitments m = m.data.strata.foldl (fpcBody m) [] := by
        simp [firstPeriodCommitments, hw, hout]
      rw [he] at hp
      exact fpc_fold_pos m m.data.strata [] (by simp) p hp
  · have he : firstPeriodCommitments m = [] := by simp [firstPeriodCommitments, hw]
    rw [he] at hp
    simp at hp

/-- Witness for C10: the plain example window commits 50 m3 for stratum A,
and that entry's value is strictly positive. -/
theorem firstPeriodCommitments_pos_witness :
    ((("A", "sawlog"), (50:ℚ)) ∈ firstPeriodCommitments exPlain) ∧
    (0:ℚ) < ((("A", "sawlog"), (50:ℚ)) : (String × String) × ℚ).2 := by
  have hm : ((("A", "sawlog"), (50:ℚ)) ∈ firstPeriodCommitments exPlain) := by
    norm_num [exPlain, firstPeriodCommitments, fpcBody, window, yld, dget,
      insertAdd, vol, tolArea, tolVol, List.foldl, List.find?]
  exact ⟨hm, firstPeriodCommitments_pos exPlain (("A", "sawlog"), (50:ℚ)) hm⟩

theorem dget_nonneg (yields : List ((String × ℤ) × ℚ))
    (hY : ∀ p ∈ yields, 0 ≤ p.2) (k : String × ℤ) : 0 ≤ dget yields k 0 := by
  unfold dget
  cases hf : yields.find? (fun e => e.1 = k) with
  | none => simp
  | some p =>
    simpa using hY p (List.mem_of_find?_eq_some hf)

theorem sum_filterMap_le_sum_map {γ : Type} (f : γ → Option ((String × String) × ℚ))
    (ub : γ → ℚ) : ∀ l : List γ,
    (∀ e ∈ l, ∀ kv, f e = some kv → kv.2 ≤ ub e) →
    (∀ e ∈ l, 0 ≤ ub e) →
    ((l.filterMap f).map Prod.snd).sum ≤ (l.map ub).sum := by
  intro l
  induction l with
  | nil => intro _ _; simp
  | cons e l ih =>
    intro h1 h2
    have hrec := ih (fun e' he' => h1 e' (List.mem_cons_of_mem _ he'))
      (fun e' he' => h2 e' (List.mem_cons_of_mem _ he'))
    cases hf : f e with
    | none =>
      simp only [List.filterMap_cons, hf, List.map_cons, List.sum_cons]
      have := h2 e (List.mem_cons_self e l)
      linarith
    | some kv =>
      simp only [List.filterMap_cons, hf, List.map_cons, List.sum_cons]
      exact add_le_add (h1 e (List.mem_cons_self e l) kv hf) hrec

/-- C2, counterexample: in the window of `exRel0` (start `t0 = 1`, yield
table `{(A,0) ↦ 0, (A,1) ↦ 2}`, solved area `X[A,1] = 1`), stratum A
exceeds both claimed tolerances when the yield is taken at the absolute
period 1 (area `1 > 1e-9`, volume `1·2 > 1e-6`), and the aggregate
absolute-yield volume is positive, yet the extractor returns the empty
commitment set: the code multiplies by the window-relative yield
`yields[(A, 0)] = 0`. -/
theorem firstPeriodCommitments_absolute_claim_refuted :
    tolArea < exRel0.X "A" 1 ∧
    tolVol < exRel0.X "A" 1 * dget exRel0.data.yields ("A", 1) 0 ∧
    firstPeriodCommitments exRel0 = [] := by
  refine ⟨?_, ?_, ?_⟩
  · show tolArea < (if ("A" == "A" && (1:ℤ) == 1 : Bool) then (1:ℚ) else 0)
    norm_num [tolArea]
  · norm_num [exRel0, tolVol, dget, List.find?]
  · norm_num [exRel0, firstPeriodCommitments, fpcBody, window, yld, dget,
      insertAdd, vol, tolArea, tolVol, List.foldl, List.find?]

/-- C2, amended: commitment extraction from a solved window, with the
yield taken at the window-relative index `t0 - t0 = 0` as the code does
and the pooled fallback guarded by the `1e-6` tolerance: every stratum
whose solved area exceeds `1e-9` and whose volume
`X[s,t0] * yields[(s,0)]` exceeds `1e-6` is recorded under
`(s, "sawlog")`; if no stratum passes and the aggregate `vol[t0]`
exceeds `1e-6`, the result is the single pooled
`(("ALL","sawlog"), vol[t0])` entry; an all-zero solution yields the
empty commitment set (and, the extractor being a total function, no
exception is possible). -/
theorem firstPeriodCommitments_amended (m : SolvedPrincipal)
    (hnd : (strataKeys m.data).Nodup) : fpcSpec m := by
  refine ⟨?_, ?_, ?_⟩
  · intro e he hw hx hv
    have hne : m.X e.1 m.t0 ≠ 0 := by
      intro h0
      rw [h0] at hx
      norm_num [tolArea] at hx
    have hsel : fpcSelect m e =
        some ((e.1, "sawlog"), m.X e.1 m.t0 * yld m.data m.t0 e.1 m.t0) := by
      unfold fpcSelect
      rw [if_pos ⟨⟨hne, hx⟩, hv⟩]
    have hcanon := fpc_foldl_canon m m.data.strata [] hnd (by simp)
    have hmem : ((e.1, "sawlog"), m.X e.1 m.t0 * yld m.data m.t0 e.1 m.t0) ∈
        m.data.strata.foldl (fpcBody m) [] := by
      rw [hcanon]
      simp only [List.nil_append]
      exact List.mem_filterMap.mpr ⟨e, he, hsel⟩
    have hout : m.data.strata.foldl (fpcBody m) [] ≠ [] :=
      List.ne_nil_of_mem hmem
    have he2 : firstPeriodCommitments m = m.data.strata.foldl (fpcBody m) [] := by
      simp [firstPeriodCommitments, hw, hout]
    rw [he2]
    exact hmem
  · intro hnone hw hv0
    have hfold : m.data.strata.foldl (fpcBody m) [] = [] := by
      rw [fpc_foldl_canon m m.data.strata [] hnd (by simp)]
      simp only [List.nil_append]
      rw [List.filterMap_eq_nil_iff]
      intro e he
      unfold fpcSelect
      rw [if_neg]
      intro hc
      exact hnone e he ⟨hc.1.2, hc.2⟩
    simp [firstPeriodCommitments, hw, hfold, hv0]
  · intro hzero
    by_cases hw : m.t0 ∈ window m.t0 m.T
    · have hfold : m.data.strata.foldl (fpcBody m) [] = [] := by
        rw [fpc_foldl_canon m m.data.strata [] hnd (by simp)]
        simp only [List.nil_append]
        rw [List.filterMap_eq_nil_iff]
        intro e _
        unfold fpcSelect
        rw [if_neg]
        intro hc
        exact hc.1.1 (hzero e.1 m.t0)
      have hvol : vol m m.t0 = 0 := by
        apply List.sum_eq_zero
        intro x hx
        rcases List.mem_map.mp hx with ⟨e, _, hxe⟩
        rw [← hxe, hzero e.1 m.t0, zero_mul]
      simp [firstPeriodCommitments, hw, hfold, hvol, tolVol]
    · simp [firstPeriodCommitments, hw]

/-- Witness for C2 (amended): the plain example window has distinct
stratum keys and satisfies the amended extraction specification. -/
theorem firstPeriodCommitments_amended_witness :
    (strataKeys exPlain.data).Nodup ∧ fpcSpec exPlain := by
  have hnd : (strataKeys exPlain.data).Nodup := by simp [strataKeys, exPlain]
  exact ⟨hnd, firstPeriodCommitments_amended exPlain hnd⟩

/-- C4, counterexample: on the solved window `exTiny` (`t0 = 0`, one
stratum with yield 1 and solved area `1e-8`), the decomposition loop's
extractor (`bilevel.py`) returns the singleton commitment
`{(A,"sawlog") ↦ 1e-8}` — the area passes its strict-positivity test —
while the Commitment Extractor of `principal.py` returns the empty set,
because `1e-8` is below its `1e-6` volume tolerance (and the aggregate
is, too).  The two functions disagree on the same solved model and
period. -/
theorem extractors_disagree :
    firstPeriodCommitments exTiny = [] ∧
    extractFirstPeriodCommitmentsBL exTiny exTiny.t0 =
      [(("A", "sawlog"), 1 / 100000000)] ∧
    extractFirstPeriodCommitmentsBL exTiny exTiny.t0 ≠ firstPeriodCommitments exTiny := by
  have h1 : firstPeriodCommitments exTiny = [] := by
    norm_num [exTiny, firstPeriodCommitments, fpcBody, window, yld, dget,
      insertAdd, vol, tolArea, tolVol, List.foldl, List.find?]
  have h2 : extractFirstPeriodCommitmentsBL exTiny exTiny.t0 =
      [(("A", "sawlog"), 1 / 100000000)] := by
    norm_num [exTiny, extractFirstPeriodCommitmentsBL, blBody, window, dget,
      dinsert, List.foldl, List.find?]
  exact ⟨h1, h2, by rw [h1, h2]; simp⟩

/-- C4, amended: the two extractors agree entry for entry on a solved
window that starts at `t0 = 0` (so the window-relative and absolute
yield lookups coincide), has distinct stratum keys, and whose solution
is non-degenerate for every stratum: the first-period volume
`X[s,0] * yields[(s,0)]` is either exactly zero or clears the principal
extractor's tolerances (`X > 1e-9` and volume `> 1e-6`).  Between those
tolerances, or for windows starting at a later period, the extractors
genuinely differ. -/
theorem extractors_agree_amended (m : SolvedPrincipal) (h0 : m.t0 = 0)
    (hnd : (strataKeys m.data).Nodup)
    (hsel : ∀ e ∈ m.data.strata,
      m.X e.1 m.t0 * dget m.data.yields (e.1, 0) 0 = 0 ∨
      (tolArea < m.X e.1 m.t0 ∧
        tolVol < m.X e.1 m.t0 * dget m.data.yields (e.1, 0) 0)) :
    extractFirstPeriodCommitmentsBL m m.t0 = firstPeriodCommitments m := by
  have hyeq : ∀ s, yld m.data m.t0 s m.t0 = dget m.data.yields (s, 0) 0 := by
    intro s
    simp [yld, sub_self]
  have habs : ∀ s, dget m.data.yields (s, m.t0) 0 = dget m.data.yields (s, 0) 0 := by
    intro s
    rw [h0]
  by_cases hw : m.t0 ∈ window m.t0 m.T
  case neg =>
    have hbl : extractFirstPeriodCommitmentsBL m m.t0 = [] := by
      unfold extractFirstPeriodCommitmentsBL
      rw [bl_foldl_canon m m.t0 m.data.strata [] hnd (by simp)]
      simp only [List.nil_append]
      rw [List.filterMap_eq_nil_iff]
      intro e _
      unfold blSelect
      rw [if_neg]
      intro hc
      exact hw hc.1
    rw [hbl]
    simp [firstPeriodCommitments, hw]
  case pos =>
  have hseleq : ∀ e ∈ m.data.strata, blSelect m m.t0 e = fpcSelect m e := by
    intro e he
    rcases hsel e he with hz | ⟨hx, hv⟩
    · have hbl : blSelect m m.t0 e = none := by
        unfold blSelect
        rw [if_neg]
        intro hc
        rw [habs e.1, hz] at hc
        exact absurd hc.2.2 (by norm_num)
      have hfp : fpcSelect m e = none := by
        unfold fpcSelect
        rw [if_neg]
        intro hc
        rw [hyeq e.1, hz] at hc
        exact absurd hc.2 (by norm_num [tolVol])
      rw [hbl, hfp]
    · have hxpos : (0:ℚ) < m.X e.1 m.t0 := lt_trans (by norm_num [tolArea]) hx
      have hbl : blSelect m m.t0 e =
          some ((e.1, "sawlog"), m.X e.1 m.t0 * dget m.data.yields (e.1, m.t0) 0) := by
        unfold blSelect
        rw [if_pos ⟨hw, not_le.mpr hxpos, by
          rw [habs e.1]
          exact lt_trans (by norm_num [tolVol]) hv⟩]
      have hfp : fpcSelect m e =
          some ((e.1, "sawlog"), m.X e.1 m.t0 * yld m.data m.t0 e.1 m.t0) := by
        unfold fpcSelect
        rw [if_pos ⟨⟨ne_of_gt hxpos, hx⟩, by rw [hyeq e.1]; exact hv⟩]
      rw [hbl, hfp, habs e.1, hyeq e.1]
  have hcanonBL := bl_foldl_canon m m.t0 m.data.strata [] hnd (by simp)
  have hcanonFP := fpc_foldl_canon m m.data.strata [] hnd (by simp)
  have hfm : m.data.strata.filterMap (blSelect m m.t0) =
      m.data.strata.filterMap (fpcSelect m) :=
    List.filterMap_congr hseleq
  by_cases hout : m.data.strata.foldl (fpcBody m) [] = []
  · have hallnone : ∀ e ∈ m.data.strata, fpcSelect m e = none := by
      rw [hcanonFP] at hout
      simp only [List.nil_append] at hout
      exact List.filterMap_eq_nil_iff.mp hout
    have hvol : vol m m.t0 = 0 := by
      apply List.sum_eq_zero
      intro x hx
      rcases List.mem_map.mp hx with ⟨e, he, hxe⟩
      rcases hsel e he with hz | ⟨hx2, hv2⟩
      · rw [← hxe, hyeq e.1, hz]
      · exfalso
        have : fpcSelect m e =
            some ((e.1, "sawlog"), m.X e.1 m.t0 * yld m.data m.t0 e.1 m.t0) := by
          unfold fpcSelect
          rw [if_pos ⟨⟨ne_of_gt (lt_trans (by norm_num [tolArea]) hx2), hx2⟩,
            by rw [hyeq e.1]; exact hv2⟩]
        rw [hallnone e he] at this
        cases this
    have hfpc : firstPeriodCommitments m = [] := by
      simp [firstPeriodCommitments, hw, hout, hvol, tolVol]
    have hbl : extractFirstPeriodCommitmentsBL m m.t0 = [] := by
      unfold extractFirstPeriodCommitmentsBL
      rw [hcanonBL]
      simp only [List.nil_append]
      rw [hfm, ← List.nil_append (m.data.strata.filterMap (fpcSelect m)), ← hcanonFP]
      exact hout
    rw [hbl, hfpc]
  · have hfpc : firstPeriodCommitments m = m.data.strata.foldl (fpcBody m) [] := by
      simp [firstPeriodCommitments, hw, hout]
    rw [hfpc]
    unfold extractFirstPeriodCommitmentsBL
    rw [hcanonBL, hcanonFP]
    simp only [List.nil_append]
    exact hfm

/-- Witness for C4 (amended): on the plain example window both extractors
return the same singleton commitment map. -/
theorem extractors_agree_amended_witness :
    extractFirstPeriodCommitmentsBL exPlain exPlain.t0 = firstPeriodCommitments exPlain := by
  refine extractors_agree_amended exPlain rfl (by simp [strataKeys, exPlain]) ?_
  intro e he
  have he2 : e = ("A", ⟨"A", 100, "PINE", 0⟩) := by simpa [exPlain] using he
  rw [he2]
  right
  constructor <;> norm_num [exPlain, tolArea, tolVol, dget, List.find?]

/-- C5: for every solved window whose solution respects the model's
constraints (`X[s,t] ≥ 0` everywhere and area conservation
`Σ_{t ∈ window} X[s,t] ≤ area[s]` per stratum), with a non-negative yield
table and distinct stratum keys, every value in the commitment set
extracted for the window's first period is non-negative and the total
committed volume is at most the physical capacity
`Σ_s area[s] * yield[s,t0]` taken at the absolute period `t0` (hence
also at most that capacity plus any tolerance `ε ≥ 0`). -/
theorem blCommitments_safe (m : SolvedPrincipal)
    (hnd : (strataKeys m.data).Nodup)
    (hX : ∀ s t, 0 ≤ m.X s t)
    (hA : ∀ e ∈ m.data.strata, ((window m.t0 m.T).map (fun t => m.X e.1 t)).sum ≤ e.2.area)
    (hY : ∀ p ∈ m.data.yields, 0 ≤ p.2) : blSafe m := by
  have hub : ∀ e ∈ m.data.strata, ∀ kv, blSelect m m.t0 e = some kv →
      kv.2 ≤ e.2.area * dget m.data.yields (e.1, m.t0) 0 := by
    intro e he kv hkv
    unfold blSelect at hkv
    split_ifs at hkv with hc
    · cases hkv
      have hwin : m.X e.1 m.t0 ∈ (window m.t0 m.T).map (fun t => m.X e.1 t) :=
        List.mem_map_of_mem _ hc.1
      have hle : m.X e.1 m.t0 ≤ ((window m.t0 m.T).map (fun t => m.X e.1 t)).sum :=
        List.single_le_sum (fun q hq => by
          rcases List.mem_map.mp hq with ⟨t, _, hqe⟩
          rw [← hqe]
          exact hX e.1 t) _ hwin
      exact mul_le_mul_of_nonneg_right (le_trans hle (hA e he))
        (dget_nonneg m.data.yields hY (e.1, m.t0))
  have hubnn : ∀ e ∈ m.data.strata, 0 ≤ e.2.area * dget m.data.yields (e.1, m.t0) 0 := by
    intro e he
    have harea : (0:ℚ) ≤ e.2.area := by
      refine le_trans ?_ (hA e he)
      apply List.sum_nonneg
      intro x hx
      rcases List.mem_map.mp hx with ⟨t, _, hxe⟩
      rw [← hxe]
      exact hX e.1 t
    exact mul_nonneg harea (dget_nonneg m.data.yields hY (e.1, m.t0))
  have hcanon := bl_foldl_canon m m.t0 m.data.strata [] hnd (by simp)
  constructor
  · intro p hp
    unfold extractFirstPeriodCommitmentsBL at hp
    rw [hcanon] at hp
    simp only [List.nil_append] at hp
    rcases List.mem_filterMap.mp hp with ⟨e, _, hsel⟩
    unfold blSelect at hsel
    split_ifs at hsel with hc
    · cases hsel
      exact le_of_lt hc.2.2
  · unfold extractFirstPeriodCommitmentsBL
    rw [hcanon]
    simp only [List.nil_append]
    exact sum_filterMap_le_sum_map (blSelect m m.t0)
      (fun e => e.2.area * dget m.data.yields (e.1, m.t0) 0) m.data.strata hub hubnn

/-- Witness for C5: the plain example window satisfies the constraint
hypotheses and its extracted commitments are safe. -/
theorem blCommitments_safe_witness : blSafe exPlain := by
  refine blCommitments_safe exPlain (by simp [strataKeys, exPlain]) ?_ ?_ ?_
  · intro s t
    simp only [exPlain]
    split <;> norm_num
  · intro e he
    have he2 : e = ("A", ⟨"A", 100, "PINE", 0⟩) := by simpa [exPlain] using he
    rw [he2]
    norm_num [window, exPlain, List.range, List.range.loop]
  · intro p hp
    have hp2 : p = (("A", 0), 2) := by simpa [exPlain] using hp
    rw [hp2]
    norm_num

end Paws3
